import Mathlib

/-!
Verification model of `varadanvk/arrow`, file `src/vectorstore.rs`.

Shallow embedding conventions:
* `f32` is modelled by exact rational arithmetic (`ℚ`).  All concrete inputs used in
  counterexamples and witnesses below are chosen so that every intermediate `f32`
  value of the Rust code (dot products, sums of squares, square roots of perfect
  squares, clamps, subtractions) is exactly representable, so on those inputs the
  rational model computes exactly what the `f32` code computes.
* The IEEE value NaN, produced by the division `0.0 / 0.0` in `cosine_distance`
  when either norm is zero, is modelled explicitly by `Option ℚ` (`none` = NaN).
* `Uuid` is an opaque identifier, modelled by `ℕ`.  `Uuid::new_v4()` draws (line 74)
  and the random level draw (line 76) are nondeterministic inputs and appear as
  explicit parameters of the modelled operations.
* `HashSet<Uuid>` is modelled by a duplicate-free `List Uuid`; the list order models
  the set's iteration order, which the Rust `HashSet` leaves unspecified (it depends
  on the per-process random hasher state).
* `HashMap` fields are modelled by association lists with distinct keys.
-/

namespace Arrow

/-- Opaque 128-bit identifier (`uuid::Uuid`), modelled as a natural number. -/
abbrev Uuid := Nat

/-- vectorstore.rs:12-17.  A graph node: id, vector, and the neighbor set at the
layer that owns this copy of the node.  The `HashSet` is modelled as a
duplicate-free list whose order stands for the hash set's iteration order. -/
structure Node where
  id : Uuid
  vector : List ℚ
  neighbors : List Uuid
deriving DecidableEq, Repr

/-- vectorstore.rs:19-24.  One layer of the graph.  The code's `id_to_index` map is
a cache that always equals «position of the (unique) node with that id in `nodes`»;
the model derives it from `nodes` (`Layer.idToIndex`). -/
structure Layer where
  nodes : List Node
deriving DecidableEq, Repr

/-- vectorstore.rs:26-38.  The store.  The `device` field is runtime-only
(serde-skipped) and never influences the modelled operations; the `m_l` field is
read only by the random level draw at line 76, which the model takes as an explicit
parameter of `add_with_filename`, so neither field is carried in the model. -/
structure VectorStore where
  layers : List Layer
  texts : List (Uuid × String)
  filenames : List (Uuid × String)
  max_connections : Nat
deriving DecidableEq, Repr

/-- vectorstore.rs:22-23: `id_to_index[&id]`, derived as the position of the node
with identifier `id` in `layer.nodes`. -/
def Layer.idToIndex (l : Layer) (id : Uuid) : Option Nat :=
  l.nodes.findIdx? (fun n => n.id = id)

/-- vectorstore.rs:41-54 (`VectorStore::new`): one empty layer, empty payload maps. -/
def VectorStore.new (max_connections : Nat) : VectorStore :=
  { layers := [⟨[]⟩], texts := [], filenames := [], max_connections := max_connections }

/-- `HashSet::insert`: membership no-op, otherwise the element joins the set (the
model appends; the real iteration order is unspecified, see the header comment). -/
def hsInsert (s : List Uuid) (x : Uuid) : List Uuid :=
  if x ∈ s then s else s ++ [x]

/-- `HashMap::insert`: replace the binding if the key is present, else add it. -/
def hmInsert (m : List (Uuid × String)) (k : Uuid) (v : String) : List (Uuid × String) :=
  if m.any (fun p => p.1 = k) then m.map (fun p => if p.1 = k then (k, v) else p)
  else m ++ [(k, v)]

/-- `HashMap::get`. -/
def hmGet (m : List (Uuid × String)) (k : Uuid) : Option String :=
  (m.find? (fun p => p.1 = k)).map (fun p => p.2)

/-- Left-to-right sum of pairwise products: vectorstore.rs:57.  (`Iterator::zip`
truncates to the shorter vector, as does `List.zip`.) -/
def dotProduct (v1 v2 : List ℚ) : ℚ :=
  ((v1.zip v2).map (fun p => p.1 * p.2)).foldl (· + ·) 0

/-- Left-to-right sum of squares: vectorstore.rs:58-59 before the `sqrt`. -/
def sumSquares (v : List ℚ) : ℚ :=
  (v.map (fun x => x * x)).foldl (· + ·) 0

/-- Largest `j ≤ k` with `j * j ≤ n`, by downward scan (structurally recursive so
that the kernel can evaluate it; `Nat.sqrt`'s well-founded recursion cannot be
reduced by `decide`). -/
def natSqrtAux (n : Nat) : Nat → Nat
  | 0 => 0
  | k + 1 => if (k + 1) * (k + 1) ≤ n then k + 1 else natSqrtAux n k

/-- Integer square root (the floor of the real square root). -/
def natSqrt (n : Nat) : Nat := natSqrtAux n n

/-- Rational model of `f32::sqrt`.  It agrees exactly with `f32::sqrt` whenever the
argument is the square of a rational with exactly representable square root (in all
concrete inputs below the argument is `0` or `1`); elsewhere both the `f32` value
and this value are approximations and no theorem below depends on them. -/
def ratSqrt (q : ℚ) : ℚ :=
  (natSqrt q.num.toNat : ℚ) / ((natSqrt q.den : ℚ))

/-- `f32::clamp(x, lo, hi)` for non-NaN `x` and `lo ≤ hi`. -/
def clamp (x lo hi : ℚ) : ℚ := max lo (min x hi)

/-- vectorstore.rs:56-61 (`cosine_distance`).  When either norm is `0` the Rust code
divides `0.0` by `0.0`, giving NaN, which `clamp` and `1.0 - ·` propagate; the NaN
result is modelled as `none`.  (A zero norm forces a zero dot product, so the
division is `0/0` exactly when `n1 * n2 = 0`.) -/
def cosine_distance (v1 v2 : List ℚ) : Option ℚ :=
  let dot := dotProduct v1 v2
  let n1 := ratSqrt (sumSquares v1)
  let n2 := ratSqrt (sumSquares v2)
  if n1 * n2 = 0 then none
  else some (1 - clamp (dot / (n1 * n2)) (-1) 1)

/-- Total wrapper used by the graph operations.  On NaN inputs the Rust code does
not produce a value either: the `partial_cmp(..).unwrap()` inside `find_nearest`'s
sort panics on a NaN distance.  The default `2` is arbitrary; every theorem below
either holds for all distance values or uses inputs with nonzero norms, where
`cosine_distance` is `some` and exact. -/
def cosineD (v1 v2 : List ℚ) : ℚ :=
  (cosine_distance v1 v2).getD 2

/-- vectorstore.rs:186 (`best.sort_by(|a, b| a.1.partial_cmp(&b.1).unwrap())`):
a stable sort by ascending distance.  Every stable sort by the same key computes
the same list; the model uses insertion sort, which is stable and matches the
stable `Vec::sort_by`. -/
def sortBest (l : List (Uuid × ℚ)) : List (Uuid × ℚ) :=
  l.insertionSort (fun a b => a.2 ≤ b.2)

/-- vectorstore.rs:181-192: the body of `find_nearest`'s neighbor loop for one
neighbor id.  State: `(best, visited, improved)`.  A neighbor id whose
`id_to_index` lookup fails would make the Rust code panic (line 183); that branch
is modelled as a skip and is unreachable for stores built by `add`. -/
def searchStep (layer : Layer) (q : List ℚ) (k : Nat)
    (st : List (Uuid × ℚ) × List Uuid × Bool) (nid : Uuid) :
    List (Uuid × ℚ) × List Uuid × Bool :=
  let (best, visited, _) := st
  if nid ∈ visited then st
  else
    let visited := visited ++ [nid]
    match layer.idToIndex nid with
    | none => (best, visited, true)
    | some j =>
      match layer.nodes[j]? with
      | none => (best, visited, true)
      | some n =>
        let d := cosineD q n.vector
        let best := sortBest (best ++ [(nid, d)])
        let best := if best.length > k then best.dropLast else best
        (best, visited, true)

/-- vectorstore.rs:176-192: one pass of `find_nearest`'s loop — expand the current
head of `best` over all its neighbors.  `best` is never empty when this is called
(its length stays ≥ 1 throughout the search); the `[]` branch mirrors the panic
`best[0]` would raise. -/
def searchPass (layer : Layer) (q : List ℚ) (k : Nat)
    (best : List (Uuid × ℚ)) (visited : List Uuid) :
    List (Uuid × ℚ) × List Uuid × Bool :=
  match best with
  | [] => ([], visited, false)
  | current :: _ =>
    match layer.idToIndex current.1 with
    | none => (best, visited, false)
    | some i =>
      match layer.nodes[i]? with
      | none => (best, visited, false)
      | some n => n.neighbors.foldl (searchStep layer q k) (best, visited, false)

/-- vectorstore.rs:175-197: the `loop { ... if !improved { break } }`.  Fuel bounds
the iteration count: every iteration except the last inserts at least one id into
`visited`, `visited` only receives the start node and neighbor ids, so
`searchFuel` (total neighbor-list length + node count + 1) iterations always
suffice and the fuel-0 branch is never taken when started with `searchFuel`. -/
def searchLoop (layer : Layer) (q : List ℚ) (k : Nat) :
    Nat → List (Uuid × ℚ) → List Uuid → List (Uuid × ℚ)
  | 0, best, _ => best
  | fuel + 1, best, visited =>
    let r := searchPass layer q k best visited
    if r.2.2 then searchLoop layer q k fuel r.1 r.2.1 else r.1

/-- Fuel that always suffices for `searchLoop` (see its doc comment). -/
def searchFuel (layer : Layer) : Nat :=
  layer.nodes.length + layer.nodes.foldl (fun a n => a + n.neighbors.length) 0 + 1

/-- vectorstore.rs:161-200 (`find_nearest`) restricted to one layer: greedy
best-first search of width `k`, started from the node at position 0. -/
def findNearestLayer (layer : Layer) (q : List ℚ) (k : Nat) : List (Uuid × ℚ) :=
  match layer.nodes with
  | [] => []
  | n0 :: _ =>
    searchLoop layer q k (searchFuel layer) [(n0.id, cosineD q n0.vector)] [n0.id]

/-- vectorstore.rs:161-200 (`find_nearest`).  An out-of-range `level` would panic in
Rust (`self.layers[level]`); callers only pass valid levels. -/
def find_nearest (s : VectorStore) (q : List ℚ) (level k : Nat) : List (Uuid × ℚ) :=
  match s.layers[level]? with
  | none => []
  | some layer => findNearestLayer layer q k

/-- vectorstore.rs:113-115 / 116-118: one half of `connect_nodes` — insert `nid`
into the neighbor set of the node at position `i`, only if that set currently has
fewer than `M` elements. -/
def Layer.capInsert (l : Layer) (M : Nat) (i : Nat) (nid : Uuid) : Layer :=
  match l.nodes[i]? with
  | none => l
  | some n =>
    if n.neighbors.length < M then
      ⟨l.nodes.set i { n with neighbors := hsInsert n.neighbors nid }⟩
    else l

/-- vectorstore.rs:109-119 (`connect_nodes`).  Both `id_to_index` lookups happen
up front (lines 110-111); each direction of the link is then capped independently.
A failed lookup would panic in Rust; `add` always passes ids present in the layer. -/
def connect_nodes (s : VectorStore) (level : Nat) (id1 id2 : Uuid) : VectorStore :=
  match s.layers[level]? with
  | none => s
  | some layer =>
    match layer.idToIndex id1, layer.idToIndex id2 with
    | some i1, some i2 =>
      let layer := layer.capInsert s.max_connections i1 id2
      let layer := layer.capInsert s.max_connections i2 id1
      { s with layers := s.layers.set level layer }
    | _, _ => s

/-- vectorstore.rs:84-99: the body of `add_with_filename`'s per-level loop — push
the fresh node (empty neighbor set) at the end of the level's node list, and if the
level now has more than one node, link the new node with the nearest one found by a
width-1 greedy search (`find_nearest` runs with the new node already in the layer;
the new node is never returned because no neighbor list mentions it yet and the
search starts at position 0, an older node). -/
def addLevel (vector : List ℚ) (id : Uuid) (s : VectorStore) (level : Nat) : VectorStore :=
  match s.layers[level]? with
  | none => s
  | some layer =>
    let layer' : Layer := ⟨layer.nodes ++ [⟨id, vector, []⟩]⟩
    let s' := { s with layers := s.layers.set level layer' }
    if layer'.nodes.length > 1 then
      match find_nearest s' vector level 1 with
      | [] => s'
      | nearest :: _ => connect_nodes s' level id nearest.1
    else s'

/-- vectorstore.rs:67-107 (`add_with_filename`).  `id` models the `Uuid::new_v4()`
draw (line 74) and `max_level` the random level draw (line 76); both are
nondeterministic inputs of the real code.  `embedding.to_vec1::<f32>()?` (line 73)
only fails for tensors that are not rank 1, which callers never construct; the
vector itself arrives as `vector`.  Note that no comparison of `vector.length`
against any stored dimension takes place. -/
def add_with_filename (s : VectorStore) (id : Uuid) (max_level : Nat)
    (vector : List ℚ) (text : String) (filename : Option String) : VectorStore :=
  let s := { s with
    layers := s.layers ++ List.replicate (max_level + 1 - s.layers.length) ⟨[]⟩ }
  let s := (List.range (max_level + 1)).foldl (addLevel vector id) s
  let s := { s with texts := hmInsert s.texts id text }
  match filename with
  | some f => { s with filenames := hmInsert s.filenames id f }
  | none => s

/-- vectorstore.rs:63-65 (`add`): `add_with_filename` with no filename. -/
def add (s : VectorStore) (id : Uuid) (max_level : Nat)
    (vector : List ℚ) (text : String) : VectorStore :=
  add_with_filename s id max_level vector text none

/-- Model of `f32::MAX` `= (2 - 2 ^ (-23)) * 2 ^ 127`. -/
def f32MAX : ℚ := 2 ^ 128 - 2 ^ 104

/-- vectorstore.rs:128-148: the entry-point descent inside `query`.  It walks the
layers from the top down, skipping empty ones, and at each visited layer overwrites
`entry_point` with the head of a width-1 greedy search; the `if level == 0 break`
is redundant (the loop ends at level 0 anyway).  `Uuid::nil()` is modelled as `0`.
The computed pair is dead: `query` never reads it (see `query_eq_querySpec`). -/
def entryPointDescent (s : VectorStore) (q : List ℚ) : Uuid × ℚ :=
  ((List.range s.layers.length).reverse).foldl
    (fun ep level =>
      match s.layers[level]? with
      | none => ep
      | some layer =>
        match layer.nodes with
        | [] => ep
        | n0 :: _ =>
          let ep' := (n0.id, cosineD q n0.vector)
          match find_nearest s q level 1 with
          | [] => ep'
          | p :: _ => p)
    (0, f32MAX)

/-- vectorstore.rs:121-159 (`query`).  `self.texts[&id]` would panic for an id
without a payload (modelled by the `getD ""` default); stores built by `add` map
every graph id to a text. -/
def query (s : VectorStore) (q : List ℚ) (k : Nat) : List (String × ℚ × Option String) :=
  let _entry_point := entryPointDescent s q
  (find_nearest s q 0 k).map (fun p =>
    ((hmGet s.texts p.1).getD "", 1 - p.2, hmGet s.filenames p.1))

/-- vectorstore.rs:229-231 (`text_count`), the store's `count()`. -/
def text_count (s : VectorStore) : Nat := s.texts.length

/-! ### Persistence (vectorstore.rs:202-218) -/

/-- A file system: contents by path. -/
def FS := String → Option String

/-- Write (create or overwrite) a file. -/
def fsWrite (fs : FS) (p c : String) : FS :=
  fun q => if q = p then some c else fs q

/-- vectorstore.rs:203-207 (`save`).  `File::create(path)` creates or truncates the
target in place — there is no temporary sibling path and no rename — and
`serde_json::to_writer` then streams the document into it.  `serialize` stands for
the serde_json rendering (library code; its output is irrelevant to the theorems
below), `ioFail`/`written` model an I/O error of the underlying writer after
`written` bytes, the only way `to_writer` can fail on this type.  The returned
`Bool` is `true` iff the call returned `Ok(())`. -/
def save (serialize : VectorStore → String) (s : VectorStore) (fs : FS) (path : String)
    (written : Nat) (ioFail : Bool) : FS × Bool :=
  let fs := fsWrite fs path ""
  if ioFail then (fsWrite fs path ((serialize s).take written), false)
  else (fsWrite fs path (serialize s), true)

/-- Error taxonomy of the specification (§7), for stating what `load` produces. -/
inductive StoreError where
  | CorruptStore : StoreError
  | IoFailure : StoreError
deriving DecidableEq, Repr

/-- vectorstore.rs:210-218 (`load`).  The file is read and handed to
`serde_json::from_str`; `doc` is the already shape-checked document (the
deserialization of a well-shaped JSON document into this type cannot fail), and
the code performs no structural validation whatsoever afterwards — it only
reattaches the device — so every shape-valid document loads as-is. -/
def load (doc : VectorStore) : Except StoreError VectorStore :=
  Except.ok doc

/-- A persisted document violating §4.4's edge-locality condition: some node's
neighbor list holds an id with no node in the same layer. -/
def hasDanglingNeighbor (s : VectorStore) : Bool :=
  s.layers.any (fun layer => layer.nodes.any (fun n =>
    n.neighbors.any (fun nid => (layer.idToIndex nid).isNone)))

/-! ### Definitions written from the claims (for refutation / refinement) -/

/-- Modelled from the claim under test (C10): the greedy best-first search on layer
0 alone, with width `k`, started from the node at position 0 of layer 0 (which is
what `findNearestLayer` does), joined with the payloads. -/
def querySpec (s : VectorStore) (q : List ℚ) (k : Nat) : List (String × ℚ × Option String) :=
  (find_nearest s q 0 k).map (fun p =>
    ((hmGet s.texts p.1).getD "", 1 - p.2, hmGet s.filenames p.1))

/-- The neighbor list stored for id `a` at layer `L` (empty when absent). -/
def neighborsOf (s : VectorStore) (L : Nat) (a : Uuid) : List Uuid :=
  match ((s.layers[L]?.getD ⟨[]⟩).nodes.find? (fun n => n.id = a)) with
  | some n => n.neighbors
  | none => []

/-- The ids of the nodes living at layer `L`. -/
def layerIds (s : VectorStore) (L : Nat) : List Uuid :=
  (s.layers[L]?.getD ⟨[]⟩).nodes.map (fun n => n.id)

/-- Two nodes that are equal up to the iteration order of their neighbor
`HashSet`. -/
def nodeEqUpToOrder (n m : Node) : Bool :=
  n.id = m.id && n.vector = m.vector && decide (n.neighbors.Perm m.neighbors)

/-- Two layers that are equal up to the iteration order of their neighbor sets. -/
def layerEqUpToOrder (a b : Layer) : Bool :=
  a.nodes.length = b.nodes.length &&
  (a.nodes.zip b.nodes).all (fun p => nodeEqUpToOrder p.1 p.2)

/-- Two stores that are indistinguishable as abstract stores: identical payloads,
parameters, layers and nodes, with each node's neighbor `HashSet` holding the same
elements.  Two runs of the program (two processes repeating the same inserts, or
two loads of the same saved file) produce stores related by this predicate, the
hash-dependent iteration order being the only difference. -/
def eqUpToNeighborOrder (s t : VectorStore) : Bool :=
  s.texts = t.texts && s.filenames = t.filenames &&
  decide (s.max_connections = t.max_connections) &&
  decide (s.layers.length = t.layers.length) &&
  (s.layers.zip t.layers).all (fun p => layerEqUpToOrder p.1 p.2)

/-! ### Reachable stores -/

/-- `Uuid::new_v4()` never repeats an id present in the store (store-unique,
never reused). -/
def freshId (s : VectorStore) (id : Uuid) : Bool :=
  s.layers.all (fun L => L.nodes.all (fun n => n.id ≠ id)) && (hmGet s.texts id).isNone

/-- The stores reachable from a fresh store by successful `add` calls
(`add_with_filename` covers `add` and `add_stored_embedding`, vectorstore.rs:63-65
and 246-262); `id` and `max_level` range over all possible draws of
`Uuid::new_v4()` and of the random level. -/
inductive Reachable : VectorStore → Prop
  | new (M : Nat) : Reachable (VectorStore.new M)
  | add (s : VectorStore) (id : Uuid) (max_level : Nat) (v : List ℚ) (t : String)
      (fn : Option String) : Reachable s → freshId s id = true →
      Reachable (add_with_filename s id max_level v t fn)

/-- C7's invariant: every neighbor set of every node in every layer has at most
`max_connections` elements. -/
def degreeCapped (s : VectorStore) : Prop :=
  ∀ L ∈ s.layers, ∀ n ∈ L.nodes, n.neighbors.length ≤ s.max_connections

/-! ### Concrete stores used in counterexamples and witnesses -/

/-- `[1,0,0,0]`: a unit basis vector.  On the basis vectors every intermediate
`f32` value of `cosine_distance` (dot `0`/`1`, norms `√1 = 1`, quotient, clamp,
difference) is exact, so the rational model and the `f32` code agree exactly. -/
def e1 : List ℚ := [1, 0, 0, 0]

/-- `[0,1,0,0]`. -/
def e2 : List ℚ := [0, 1, 0, 0]

/-- `[0,0,1,0]`. -/
def e3 : List ℚ := [0, 0, 1, 0]

/-- `[0,0,0,1]`. -/
def e4 : List ℚ := [0, 0, 0, 1]

/-- Four successful adds into a fresh store with `max_connections = 2`, all with
level draw 0: vectors `e1, e2, e3, e4`, texts `"a", "b", "c", "d"`.  The first
node ends with neighbors `{b, c}` (at the cap), nodes `b`, `c`, `d` each end with
neighbors `{a}` — the edge `d → a` has no reverse edge. -/
def s4 : VectorStore :=
  add_with_filename
    (add_with_filename
      (add_with_filename
        (add_with_filename (VectorStore.new 2) 0 0 e1 "a" none)
        1 0 e2 "b" none)
      2 0 e3 "c" none)
    3 0 e4 "d" none

/-- The same abstract store as `s4`, with the iteration order of node `a`'s
neighbor `HashSet` reversed (`[2,1]` instead of `[1,2]`) — as another run of the
process, or another load of the same saved file, may materialize it. -/
def s4p : VectorStore :=
  { s4 with layers := [⟨[⟨0, e1, [2, 1]⟩, ⟨1, e2, [0]⟩, ⟨2, e3, [0]⟩, ⟨3, e4, [0]⟩]⟩] }

/-- One add of the 1-dimensional vector `[1]` into a fresh store. -/
def s1dim : VectorStore :=
  add_with_filename (VectorStore.new 16) 0 0 [1] "a" none

/-- A second add, of the 2-dimensional vector `[1, 2]`, into `s1dim`. -/
def s2dim : VectorStore :=
  add_with_filename s1dim 1 0 [1, 2] "b" none

/-- A persisted document whose single node's neighbor list holds the id `99`,
which resolves to no node in the layer. -/
def badDoc : VectorStore :=
  { layers := [⟨[⟨0, [1], [99]⟩]⟩], texts := [(0, "t")], filenames := [],
    max_connections := 16 }

/-- A two-node, one-layer store with `max_connections = 1`, both neighbor sets
empty: both endpoints are strictly under the degree cap. -/
def w2 : VectorStore :=
  { layers := [⟨[⟨0, [1], []⟩, ⟨1, [2], []⟩]⟩], texts := [(0, "x"), (1, "y")],
    filenames := [], max_connections := 1 }

/-- A file system with one file `"db.json"` holding `"old"`. -/
def fs0 : FS :=
  fun q => if q = "db.json" then some "old" else none

/-- A stand-in for the serde_json rendering in the closed `save` counterexample;
the behavior exhibited there is independent of the serializer's output. -/
def serializeStub : VectorStore → String := fun _ => "doc"

/-! ### Order instances for the sort relation -/

instance : IsTotal (Uuid × ℚ) (fun a b => a.2 ≤ b.2) := ⟨fun a b => le_total a.2 b.2⟩

instance : IsTrans (Uuid × ℚ) (fun a b => a.2 ≤ b.2) := ⟨fun _ _ _ h h' => le_trans h h'⟩

/-! ## Association-list lemmas -/

theorem find?_map_replace (m : List (Uuid × String)) (k : Uuid) (v : String) :
    (m.map (fun p => if p.1 = k then (k, v) else p)).find? (fun p => p.1 = k)
      = if m.any (fun p => p.1 = k) then some (k, v) else none := by
  induction m with
  | nil => rfl
  | cons p m ih =>
    by_cases hp : p.1 = k
    · simp [hp]
    · have hd : decide (p.1 = k) = false := by simp [hp]
      simp only [List.map_cons, if_neg hp, List.find?_cons, List.any_cons, hd,
        Bool.false_or]
      exact ih

theorem find?_append_last (m : List (Uuid × String)) (k : Uuid) (v : String)
    (h : ∀ p ∈ m, p.1 ≠ k) :
    (m ++ [(k, v)]).find? (fun p => p.1 = k) = some (k, v) := by
  induction m with
  | nil => simp
  | cons p m ih =>
    have hp : decide (p.1 = k) = false := by simp [h p (by simp)]
    simp only [List.cons_append, List.find?_cons, hp]
    exact ih (fun q hq => h q (by simp [hq]))

theorem find?_map_replace_ne (m : List (Uuid × String)) (k k' : Uuid) (v : String)
    (hne : k' ≠ k) :
    (m.map (fun p => if p.1 = k then (k, v) else p)).find? (fun p => p.1 = k')
      = m.find? (fun p => p.1 = k') := by
  induction m with
  | nil => rfl
  | cons p m ih =>
    by_cases hp : p.1 = k
    · have h1 : decide ((k, v).1 = k') = false := by simp [Ne.symm hne]
      have h2 : decide (p.1 = k') = false := by simp [hp, Ne.symm hne]
      simp only [List.map_cons, if_pos hp, List.find?_cons, h1, h2]
      exact ih
    · simp only [List.map_cons, if_neg hp, List.find?_cons]
      cases hd : decide (p.1 = k')
      · exact ih
      · rfl

theorem find?_append_ne (m : List (Uuid × String)) (k k' : Uuid) (v : String)
    (hne : k' ≠ k) :
    (m ++ [(k, v)]).find? (fun p => p.1 = k') = m.find? (fun p => p.1 = k') := by
  induction m with
  | nil => simp [Ne.symm hne]
  | cons p m ih =>
    simp only [List.cons_append, List.find?_cons]
    cases hd : decide (p.1 = k')
    · exact ih
    · rfl

theorem hmGet_hmInsert_self (m : List (Uuid × String)) (k : Uuid) (v : String) :
    hmGet (hmInsert m k v) k = some v := by
  unfold hmGet hmInsert
  split
  · rw [find?_map_replace]
    simp_all
  · rename_i h
    rw [find?_append_last]
    · rfl
    · intro p hp hpk
      exact h (by simp only [List.any_eq_true]; exact ⟨p, hp, by simp [hpk]⟩)

theorem hmGet_hmInsert_ne (m : List (Uuid × String)) (k k' : Uuid) (v : String)
    (hne : k' ≠ k) : hmGet (hmInsert m k v) k' = hmGet m k' := by
  unfold hmGet hmInsert
  split
  · rw [find?_map_replace_ne m k k' v hne]
  · rw [find?_append_ne m k k' v hne]

/-! ## Payload maps are untouched by the graph surgery inside `add` -/

theorem connect_nodes_texts (s : VectorStore) (level : Nat) (a b : Uuid) :
    (connect_nodes s level a b).texts = s.texts := by
  unfold connect_nodes
  split
  · rfl
  · split <;> rfl

theorem connect_nodes_filenames (s : VectorStore) (level : Nat) (a b : Uuid) :
    (connect_nodes s level a b).filenames = s.filenames := by
  unfold connect_nodes
  split
  · rfl
  · split <;> rfl

theorem connect_nodes_max (s : VectorStore) (level : Nat) (a b : Uuid) :
    (connect_nodes s level a b).max_connections = s.max_connections := by
  unfold connect_nodes
  split
  · rfl
  · split <;> rfl

theorem addLevel_texts (v : List ℚ) (id : Uuid) (s : VectorStore) (level : Nat) :
    (addLevel v id s level).texts = s.texts := by
  unfold addLevel
  split
  · rfl
  · dsimp only
    split
    · split
      · rfl
      · rw [connect_nodes_texts]
    · rfl

theorem addLevel_filenames (v : List ℚ) (id : Uuid) (s : VectorStore) (level : Nat) :
    (addLevel v id s level).filenames = s.filenames := by
  unfold addLevel
  split
  · rfl
  · dsimp only
    split
    · split
      · rfl
      · rw [connect_nodes_filenames]
    · rfl

theorem addLevel_max (v : List ℚ) (id : Uuid) (s : VectorStore) (level : Nat) :
    (addLevel v id s level).max_connections = s.max_connections := by
  unfold addLevel
  split
  · rfl
  · dsimp only
    split
    · split
      · rfl
      · rw [connect_nodes_max]
    · rfl

theorem foldl_addLevel_texts (v : List ℚ) (id : Uuid) (levels : List Nat) :
    ∀ s : VectorStore, (levels.foldl (addLevel v id) s).texts = s.texts := by
  induction levels with
  | nil => intro s; rfl
  | cons l levels ih => intro s; rw [List.foldl_cons, ih, addLevel_texts]

theorem foldl_addLevel_filenames (v : List ℚ) (id : Uuid) (levels : List Nat) :
    ∀ s : VectorStore, (levels.foldl (addLevel v id) s).filenames = s.filenames := by
  induction levels with
  | nil => intro s; rfl
  | cons l levels ih => intro s; rw [List.foldl_cons, ih, addLevel_filenames]

theorem foldl_addLevel_max (v : List ℚ) (id : Uuid) (levels : List Nat) :
    ∀ s : VectorStore, (levels.foldl (addLevel v id) s).max_connections = s.max_connections := by
  induction levels with
  | nil => intro s; rfl
  | cons l levels ih => intro s; rw [List.foldl_cons, ih, addLevel_max]

theorem add_with_filename_texts (s : VectorStore) (id : Uuid) (max_level : Nat)
    (v : List ℚ) (t : String) (fn : Option String) :
    (add_with_filename s id max_level v t fn).texts = hmInsert s.texts id t := by
  unfold add_with_filename
  cases fn <;> simp [foldl_addLevel_texts]

theorem add_with_filename_max (s : VectorStore) (id : Uuid) (max_level : Nat)
    (v : List ℚ) (t : String) (fn : Option String) :
    (add_with_filename s id max_level v t fn).max_connections = s.max_connections := by
  unfold add_with_filename
  cases fn <;> simp [foldl_addLevel_max]

/-! ## Claim theorems: C1, C2, C3, C5, C10 -/

/-- C1 (counterexample).  `s1dim` is a store whose first (and only) successful add
fixed the stored vectors to length 1; per the claim, adding the length-2 vector
`[1, 2]` must fail with `DimensionMismatch` and leave the store unchanged.  In the
code the add succeeds: the new text is recorded, the store differs from `s1dim`,
and layer 0 now holds vectors of mixed lengths 1 and 2. -/
theorem add_mixed_dimension_counterexample :
    Reachable s1dim ∧ hmGet s2dim.texts 1 = some "b" ∧ s2dim ≠ s1dim ∧
    ((s2dim.layers[0]?.getD (Layer.mk [])).nodes.map (fun n => n.vector.length)) = [1, 2] := by
  refine ⟨Reachable.add _ 0 0 [1] "a" none (Reachable.new 16) (by decide), ?_⟩
  with_unfolding_all decide

/-- C1 (amended): `add_with_filename` performs no dimension validation at all — for
every store and every vector, whatever its length, the add succeeds and records the
text under the new id (there is no `DimensionMismatch` path in the code, and the
store keeps no `dim` field). -/
theorem add_accepts_any_dimension (s : VectorStore) (id : Uuid) (max_level : Nat)
    (v : List ℚ) (t : String) (fn : Option String) :
    hmGet (add_with_filename s id max_level v t fn).texts id = some t := by
  rw [add_with_filename_texts]; exact hmGet_hmInsert_self _ _ _

/-- C2 (counterexample).  A file system holding `"old"` at the target path; `save`
hits an I/O failure at the very first serialized byte (`written = 0`, `ioFail`),
returns an error — and the target now holds `""` (the `File::create` truncation),
not its previous contents, contradicting the claimed all-or-nothing behavior. -/
theorem save_failure_clobbers_target :
    fs0 "db.json" = some "old" ∧
    (save serializeStub (VectorStore.new 16) fs0 "db.json" 0 true).2 = false ∧
    (save serializeStub (VectorStore.new 16) fs0 "db.json" 0 true).1 "db.json" = some "" ∧
    (save serializeStub (VectorStore.new 16) fs0 "db.json" 0 true).1 "db.json"
      ≠ fs0 "db.json" := by
  refine ⟨rfl, rfl, rfl, by decide⟩

/-- C2 (amended): `save` writes straight into the target path — `File::create`
truncates it on entry, with no temporary sibling file and no rename — so after the
call the target always holds the serialized document on success and a prefix of it
(possibly empty) on an I/O failure during serialization, never its previous
contents. -/
theorem save_overwrites_target_in_place (ser : VectorStore → String) (s : VectorStore)
    (fs : FS) (path : String) (written : Nat) (ioFail : Bool) :
    (save ser s fs path written ioFail).1 path
        = some (if ioFail then (ser s).take written else ser s)
      ∧ (save ser s fs path written ioFail).2 = !ioFail := by
  unfold save fsWrite
  cases ioFail <;> simp

/-- C3 (counterexample).  `badDoc` is a persisted document in which the single
node's neighbor list holds id `99`, which resolves to no node in the layer; per the
claim `load` must fail with `CorruptStore`, but the code's `load` performs no
validation and returns the document as the loaded store. -/
theorem load_accepts_dangling_neighbor :
    hasDanglingNeighbor badDoc = true ∧ load badDoc ≠ Except.error StoreError.CorruptStore ∧
    load badDoc = Except.ok badDoc := by
  refine ⟨by decide, ?_, rfl⟩
  intro h
  exact Except.noConfusion h

/-- C3 (amended): `load` validates nothing — deserialization of any shape-valid
document succeeds and is returned as-is, dangling neighbor ids included; no
`CorruptStore` error exists anywhere in the code. -/
theorem load_performs_no_validation (doc : VectorStore) :
    load doc = Except.ok doc := rfl

/-- C5 (counterexample).  For the zero vectors `[0]` and `[0]` (equal length, both
of norm 0) the code computes `0.0 / 0.0 = NaN`, which `clamp` and `1.0 - ·`
propagate — the kernel returns NaN (`none`), not the claimed `1`. -/
theorem cosine_distance_zero_counterexample :
    cosine_distance [(0 : ℚ)] [0] = none ∧ cosine_distance [(0 : ℚ)] [0] ≠ some 1 := by
  with_unfolding_all decide

/-! ## Arithmetic lemmas for the distance kernel -/

theorem foldl_add_nonneg (l : List ℚ) : ∀ a : ℚ, 0 ≤ a → (∀ x ∈ l, 0 ≤ x) →
    0 ≤ l.foldl (· + ·) a := by
  induction l with
  | nil => intro a ha _; simpa using ha
  | cons x l ih =>
    intro a ha hl
    simp only [List.foldl_cons]
    exact ih _ (add_nonneg ha (hl x (by simp))) (fun y hy => hl y (by simp [hy]))

theorem sumSquares_nonneg (v : List ℚ) : 0 ≤ sumSquares v := by
  refine foldl_add_nonneg _ 0 le_rfl ?_
  intro x hx
  obtain ⟨y, _, rfl⟩ := List.mem_map.mp hx
  exact mul_self_nonneg y

theorem natSqrtAux_zero (k : Nat) : natSqrtAux 0 k = 0 := by
  induction k with
  | zero => rfl
  | succ k ih =>
    unfold natSqrtAux
    rw [if_neg]
    · exact ih
    · have h1 : 0 < (k + 1) * (k + 1) := Nat.mul_pos (Nat.succ_pos k) (Nat.succ_pos k)
      omega

theorem natSqrtAux_pos (n : Nat) (hn : 1 ≤ n) : ∀ k, 1 ≤ k → 1 ≤ natSqrtAux n k := by
  intro k
  induction k with
  | zero => omega
  | succ k ih =>
    intro _
    unfold natSqrtAux
    split
    · omega
    · rename_i hlt
      rcases Nat.eq_zero_or_pos k with h0 | hk
      · subst h0
        exact absurd (by simpa using hn) hlt
      · exact ih hk

theorem natSqrt_eq_zero_iff (n : Nat) : natSqrt n = 0 ↔ n = 0 := by
  constructor
  · intro h
    by_contra hn
    have h1 : 1 ≤ natSqrtAux n n :=
      natSqrtAux_pos n (Nat.one_le_iff_ne_zero.mpr hn) n (Nat.one_le_iff_ne_zero.mpr hn)
    have h2 : natSqrtAux n n = 0 := h
    omega
  · rintro rfl
    exact natSqrtAux_zero _

theorem ratSqrt_eq_zero_iff (q : ℚ) (hq : 0 ≤ q) : ratSqrt q = 0 ↔ q = 0 := by
  unfold ratSqrt
  rw [div_eq_zero_iff]
  have hden : (natSqrt q.den : ℚ) ≠ 0 := by
    rw [Nat.cast_ne_zero]
    intro h
    exact q.den_nz ((natSqrt_eq_zero_iff _).mp h)
  constructor
  · rintro (h | h)
    · rw [Nat.cast_eq_zero, natSqrt_eq_zero_iff, Int.toNat_eq_zero] at h
      have h0 : 0 ≤ q.num := Rat.num_nonneg.mpr hq
      exact Rat.num_eq_zero.mp (le_antisymm h h0)
    · exact absurd h hden
  · rintro rfl
    left
    have h0 : natSqrt (0 : ℚ).num.toNat = 0 := rfl
    rw [h0, Nat.cast_zero]

/-- C5 (amended): the kernel returns NaN (`none`) exactly when either vector's sum
of squares — hence its norm — is `0` (in particular on any zero vector); for every
other input pair it returns a value, never NaN.  It never returns `1` in the
zero-norm case, contrary to the claim (see the counterexample). -/
theorem cosine_distance_none_iff (u v : List ℚ) :
    cosine_distance u v = none ↔ sumSquares u = 0 ∨ sumSquares v = 0 := by
  have key : ratSqrt (sumSquares u) * ratSqrt (sumSquares v) = 0
      ↔ sumSquares u = 0 ∨ sumSquares v = 0 := by
    rw [mul_eq_zero, ratSqrt_eq_zero_iff _ (sumSquares_nonneg u),
      ratSqrt_eq_zero_iff _ (sumSquares_nonneg v)]
  unfold cosine_distance
  dsimp only
  split
  · rename_i h
    constructor
    · intro _
      exact key.mp h
    · intro _
      rfl
  · rename_i h
    constructor
    · intro hsome
      exact Option.noConfusion hsome
    · intro hor
      exact absurd (key.mpr hor) h

/-! ## `connect_nodes` surgery lemmas -/

theorem hsInsert_mem_self (s : List Uuid) (x : Uuid) : x ∈ hsInsert s x := by
  unfold hsInsert
  split
  · assumption
  · simp

theorem capInsert_get_self (l : Layer) (M : Nat) (i : Nat) (nid : Uuid) (n : Node)
    (hn : l.nodes[i]? = some n) (hc : n.neighbors.length < M) :
    (l.capInsert M i nid).nodes[i]? = some { n with neighbors := hsInsert n.neighbors nid } := by
  unfold Layer.capInsert
  rw [hn]
  dsimp only
  rw [if_pos hc]
  exact List.getElem?_set_self ((List.getElem?_eq_some.mp hn).1)

theorem capInsert_get_ne (l : Layer) (M : Nat) (i j : Nat) (nid : Uuid) (hij : i ≠ j) :
    (l.capInsert M i nid).nodes[j]? = l.nodes[j]? := by
  unfold Layer.capInsert
  split
  · rfl
  · split
    · exact List.getElem?_set_ne hij
    · rfl

/-- C4 (counterexample).  `s4` is reachable by four successful adds from a fresh
store with `max_connections = 2` (level draw 0 and ids 0..3; all vectors are unit
basis vectors, on which the rational model computes exactly the `f32` values).  The
fourth add links `d → a` while `a` is already at the degree cap, so the reverse
edge is dropped: at layer 0, `0 ∈ neighbors(3)` but `3 ∉ neighbors(0)` — edge
symmetry fails on a reachable store. -/
theorem edge_symmetry_counterexample :
    Reachable s4 ∧ 0 ∈ neighborsOf s4 0 3 ∧ 3 ∉ neighborsOf s4 0 0 := by
  constructor
  · exact Reachable.add _ 3 0 e4 "d" none
      (Reachable.add _ 2 0 e3 "c" none
        (Reachable.add _ 1 0 e2 "b" none
          (Reachable.add _ 0 0 e1 "a" none (Reachable.new 2)
            (by decide))
          (by with_unfolding_all decide))
        (by with_unfolding_all decide))
      (by with_unfolding_all decide)
  · with_unfolding_all decide

/-- C4 (amended): an edge created by `connect_nodes` while both endpoints are
strictly below the degree cap is symmetric — each endpoint records the other.  (The
cap check of each direction is evaluated independently, so when the found nearest
neighbor already has `max_connections` neighbors the new edge is recorded one-way,
as the counterexample shows.) -/
theorem connect_nodes_symm_of_uncapped
    (s : VectorStore) (level : Nat) (id1 id2 : Uuid) (layer : Layer) (i1 i2 : Nat)
    (n1 n2 : Node)
    (hL : s.layers[level]? = some layer)
    (h1 : layer.idToIndex id1 = some i1) (h2 : layer.idToIndex id2 = some i2)
    (hi : i1 ≠ i2)
    (hn1 : layer.nodes[i1]? = some n1) (hn2 : layer.nodes[i2]? = some n2)
    (hc1 : n1.neighbors.length < s.max_connections)
    (hc2 : n2.neighbors.length < s.max_connections) :
    ∃ layer2, (connect_nodes s level id1 id2).layers[level]? = some layer2 ∧
      (∃ m1, layer2.nodes[i1]? = some m1 ∧ id2 ∈ m1.neighbors) ∧
      (∃ m2, layer2.nodes[i2]? = some m2 ∧ id1 ∈ m2.neighbors) := by
  have hlen : level < s.layers.length := (List.getElem?_eq_some.mp hL).1
  have g1 : (layer.capInsert s.max_connections i1 id2).nodes[i1]?
      = some { n1 with neighbors := hsInsert n1.neighbors id2 } :=
    capInsert_get_self layer s.max_connections i1 id2 n1 hn1 hc1
  have g2 : (layer.capInsert s.max_connections i1 id2).nodes[i2]? = some n2 := by
    rw [capInsert_get_ne layer s.max_connections i1 i2 id2 hi]
    exact hn2
  have g3 : ((layer.capInsert s.max_connections i1 id2).capInsert
        s.max_connections i2 id1).nodes[i2]?
      = some { n2 with neighbors := hsInsert n2.neighbors id1 } :=
    capInsert_get_self _ s.max_connections i2 id1 n2 g2 hc2
  have g4 : ((layer.capInsert s.max_connections i1 id2).capInsert
        s.max_connections i2 id1).nodes[i1]?
      = some { n1 with neighbors := hsInsert n1.neighbors id2 } := by
    rw [capInsert_get_ne _ s.max_connections i2 i1 id1 (Ne.symm hi)]
    exact g1
  unfold connect_nodes
  rw [hL]
  try dsimp only
  rw [h1, h2]
  try dsimp only
  refine ⟨_, ?_, ⟨_, g4, hsInsert_mem_self _ _⟩, ⟨_, g3, hsInsert_mem_self _ _⟩⟩
  exact List.getElem?_set_self (by simpa using hlen)

/-- Witness for `connect_nodes_symm_of_uncapped` at the concrete store `w2`. -/
theorem connect_nodes_symm_witness :
    ∃ layer2, (connect_nodes w2 0 0 1).layers[0]? = some layer2 ∧
      (∃ m1, layer2.nodes[0]? = some m1 ∧ 1 ∈ m1.neighbors) ∧
      (∃ m2, layer2.nodes[1]? = some m2 ∧ 0 ∈ m2.neighbors) :=
  connect_nodes_symm_of_uncapped w2 0 0 1 ⟨[⟨0, [1], []⟩, ⟨1, [2], []⟩]⟩ 0 1
    ⟨0, [1], []⟩ ⟨1, [2], []⟩ rfl rfl rfl (by decide) rfl rfl (by decide) (by decide)

/-! ## Degree-cap preservation (C7) -/

theorem hsInsert_length_le (s : List Uuid) (x : Uuid) :
    (hsInsert s x).length ≤ s.length + 1 := by
  unfold hsInsert
  split
  · omega
  · simp

theorem capInsert_degree (l : Layer) (M i : Nat) (nid : Uuid)
    (h : ∀ n ∈ l.nodes, n.neighbors.length ≤ M) :
    ∀ n ∈ (l.capInsert M i nid).nodes, n.neighbors.length ≤ M := by
  unfold Layer.capInsert
  split
  · exact h
  · rename_i m hm
    split
    · rename_i hc
      intro n hn
      rcases List.mem_or_eq_of_mem_set hn with h1 | h1
      · exact h n h1
      · subst h1
        have h2 := hsInsert_length_le m.neighbors nid
        dsimp only
        omega
    · exact h

theorem connect_nodes_degree (s : VectorStore) (level : Nat) (a b : Uuid)
    (h : degreeCapped s) : degreeCapped (connect_nodes s level a b) := by
  intro L hL n hn
  rw [connect_nodes_max]
  revert hL
  unfold connect_nodes
  split
  · intro hL
    exact h L hL n hn
  · rename_i layer hlayer
    split
    · rename_i i1 i2 hi1 hi2
      intro hL
      dsimp only at hL
      rcases List.mem_or_eq_of_mem_set hL with h1 | h1
      · exact h L h1 n hn
      · subst h1
        have hmem : layer ∈ s.layers := by
          rcases List.getElem?_eq_some.mp hlayer with ⟨hlt, hget⟩
          exact hget ▸ List.getElem_mem hlt
        have hlay : ∀ m ∈ layer.nodes, m.neighbors.length ≤ s.max_connections :=
          fun m hm => h layer hmem m hm
        exact capInsert_degree _ _ _ _ (capInsert_degree _ _ _ _ hlay) n hn
    · intro hL
      exact h L hL n hn

theorem addLevel_degree (v : List ℚ) (id : Uuid) (s : VectorStore) (level : Nat)
    (h : degreeCapped s) : degreeCapped (addLevel v id s level) := by
  unfold addLevel
  split
  · exact h
  · rename_i layer hlayer
    have hs' : degreeCapped { s with
        layers := s.layers.set level ⟨layer.nodes ++ [⟨id, v, []⟩]⟩ } := by
      intro L hL n hn
      dsimp only at hL ⊢
      rcases List.mem_or_eq_of_mem_set hL with h1 | h1
      · exact h L h1 n hn
      · subst h1
        rcases List.mem_append.mp hn with h2 | h2
        · have hmem : layer ∈ s.layers := by
            rcases List.getElem?_eq_some.mp hlayer with ⟨hlt, hget⟩
            exact hget ▸ List.getElem_mem hlt
          exact h layer hmem n h2
        · simp only [List.mem_singleton] at h2
          subst h2
          simp
    try dsimp only
    split
    · split
      · exact hs'
      · exact connect_nodes_degree _ _ _ _ hs'
    · exact hs'

theorem foldl_addLevel_degree (v : List ℚ) (id : Uuid) (levels : List Nat) :
    ∀ s : VectorStore, degreeCapped s → degreeCapped (levels.foldl (addLevel v id) s) := by
  induction levels with
  | nil => intro s h; exact h
  | cons l levels ih =>
    intro s h
    rw [List.foldl_cons]
    exact ih _ (addLevel_degree v id s l h)

theorem extend_degree (s : VectorStore) (m : Nat) (h : degreeCapped s) :
    degreeCapped { s with layers := s.layers ++ List.replicate m ⟨[]⟩ } := by
  intro L hL n hn
  dsimp only at hL ⊢
  rcases List.mem_append.mp hL with h1 | h1
  · exact h L h1 n hn
  · have h2 : L = (⟨[]⟩ : Layer) := List.eq_of_mem_replicate h1
    subst h2
    simp at hn

theorem add_with_filename_degree (s : VectorStore) (id : Uuid) (max_level : Nat)
    (v : List ℚ) (t : String) (fn : Option String) (h : degreeCapped s) :
    degreeCapped (add_with_filename s id max_level v t fn) := by
  unfold add_with_filename
  cases fn
  · exact foldl_addLevel_degree v id (List.range (max_level + 1)) _
      (extend_degree s (max_level + 1 - s.layers.length) h)
  · exact foldl_addLevel_degree v id (List.range (max_level + 1)) _
      (extend_degree s (max_level + 1 - s.layers.length) h)

/-- C7: after any sequence of successful `add` calls from a fresh store — any
sequence of id and level draws included — every node's neighbor set at every layer
has at most `max_connections` elements: `connect_nodes` only inserts into a
neighbor set it found strictly below the cap, and every other step creates nodes
with empty neighbor sets. -/
theorem degree_cap_invariant (s : VectorStore) (h : Reachable s) : degreeCapped s := by
  induction h with
  | new M =>
    intro L hL n hn
    simp only [VectorStore.new, List.mem_singleton] at hL
    subst hL
    simp at hn
  | add s id lvl v t fn hr hf ih =>
    exact add_with_filename_degree s id lvl v t fn ih

/-- Witness for `degree_cap_invariant` at the four-node reachable store `s4`. -/
theorem degree_cap_witness : degreeCapped s4 :=
  degree_cap_invariant s4
    (Reachable.add _ 3 0 e4 "d" none
      (Reachable.add _ 2 0 e3 "c" none
        (Reachable.add _ 1 0 e2 "b" none
          (Reachable.add _ 0 0 e1 "a" none (Reachable.new 2)
            (by decide))
          (by with_unfolding_all decide))
        (by with_unfolding_all decide))
      (by with_unfolding_all decide))

/-- C10: the entry point computed by the descent over the upper layers
(vectorstore.rs:128-148) is dead — `query` returns exactly the greedy best-first
search on layer 0 alone, width `k`, started from the node at position 0 of layer 0
(`find_nearest(query, 0, k)` hard-codes that start), joined with the payloads. -/
theorem query_eq_layer0_search :
    ∀ (s : VectorStore) (q : List ℚ) (k : Nat), query s q k = querySpec s q k :=
  fun _ _ _ => rfl

/-! ## Layer bookkeeping (C8) -/

theorem set_self_of_getElem {α : Type _} (l : List α) (i : Nat) (a : α)
    (h : l[i]? = some a) : l.set i a = l := by
  induction l generalizing i with
  | nil => simp at h
  | cons x l ih =>
    cases i with
    | zero =>
      simp only [List.getElem?_cons_zero, Option.some.injEq] at h
      subst h
      rfl
    | succ i =>
      simp only [List.getElem?_cons_succ] at h
      simp only [List.set_cons_succ, ih i h]

theorem capInsert_ids (l : Layer) (M i : Nat) (nid : Uuid) :
    (l.capInsert M i nid).nodes.map (fun n => n.id) = l.nodes.map (fun n => n.id) := by
  unfold Layer.capInsert
  split
  · rfl
  · rename_i m hm
    split
    · dsimp only
      rw [List.map_set]
      dsimp only
      apply set_self_of_getElem
      rw [List.getElem?_map, hm]
      rfl
    · rfl

theorem capInsert_length (l : Layer) (M i : Nat) (nid : Uuid) :
    (l.capInsert M i nid).nodes.length = l.nodes.length := by
  unfold Layer.capInsert
  split
  · rfl
  · split
    · dsimp only
      rw [List.length_set]
    · rfl

theorem connect_nodes_layers_length (s : VectorStore) (level : Nat) (a b : Uuid) :
    (connect_nodes s level a b).layers.length = s.layers.length := by
  unfold connect_nodes
  split
  · rfl
  · split
    · dsimp only
      rw [List.length_set]
    · rfl

theorem connect_nodes_layerIds (s : VectorStore) (level : Nat) (a b : Uuid) (L : Nat) :
    layerIds (connect_nodes s level a b) L = layerIds s L := by
  unfold layerIds connect_nodes
  split
  · rfl
  · rename_i layer hlayer
    split
    · rename_i i1 i2 h1 h2
      dsimp only
      by_cases hL : level = L
      · subst hL
        rw [List.getElem?_set_self (List.getElem?_eq_some.mp hlayer).1, hlayer]
        simp only [Option.getD_some]
        rw [capInsert_ids, capInsert_ids]
      · rw [List.getElem?_set_ne hL]
    · rfl

theorem addLevel_layers_length (v : List ℚ) (id : Uuid) (s : VectorStore) (level : Nat) :
    (addLevel v id s level).layers.length = s.layers.length := by
  unfold addLevel
  split
  · rfl
  · try dsimp only
    split
    · split
      · dsimp only
        rw [List.length_set]
      · rw [connect_nodes_layers_length]
        dsimp only
        rw [List.length_set]
    · dsimp only
      rw [List.length_set]

theorem addLevel_layerIds_self (v : List ℚ) (id : Uuid) (s : VectorStore) (level : Nat)
    (layer : Layer) (h : s.layers[level]? = some layer) :
    layerIds (addLevel v id s level) level = layerIds s level ++ [id] := by
  have hlt : level < s.layers.length := (List.getElem?_eq_some.mp h).1
  have hbase : layerIds { s with
      layers := s.layers.set level ⟨layer.nodes ++ [⟨id, v, []⟩]⟩ } level
      = layerIds s level ++ [id] := by
    unfold layerIds
    dsimp only
    rw [List.getElem?_set_self hlt, h]
    simp only [Option.getD_some]
    simp
  unfold addLevel
  rw [h]
  try dsimp only
  split
  · split
    · exact hbase
    · rw [connect_nodes_layerIds]
      exact hbase
  · exact hbase

theorem addLevel_layerIds_ne (v : List ℚ) (id : Uuid) (s : VectorStore) (level L : Nat)
    (hne : level ≠ L) :
    layerIds (addLevel v id s level) L = layerIds s L := by
  have hbase : ∀ layer : Layer, layerIds { s with
      layers := s.layers.set level ⟨layer.nodes ++ [⟨id, v, []⟩]⟩ } L
      = layerIds s L := by
    intro layer
    unfold layerIds
    dsimp only
    rw [List.getElem?_set_ne hne]
  unfold addLevel
  split
  · rfl
  · rename_i layer h
    try dsimp only
    split
    · split
      · exact hbase layer
      · rw [connect_nodes_layerIds]
        exact hbase layer
    · exact hbase layer

theorem foldl_addLevel_layers_length (v : List ℚ) (id : Uuid) (levels : List Nat) :
    ∀ s : VectorStore, (levels.foldl (addLevel v id) s).layers.length = s.layers.length := by
  induction levels with
  | nil => intro s; rfl
  | cons l levels ih =>
    intro s
    rw [List.foldl_cons, ih, addLevel_layers_length]

theorem foldl_layerIds_notmem (v : List ℚ) (id : Uuid) (levels : List Nat) (L : Nat)
    (h : L ∉ levels) :
    ∀ s : VectorStore, layerIds (levels.foldl (addLevel v id) s) L = layerIds s L := by
  induction levels with
  | nil => intro s; rfl
  | cons l levels ih =>
    intro s
    have h1 : l ≠ L := fun he => h (by simp [he])
    rw [List.foldl_cons, ih (fun hm => h (by simp [hm])), addLevel_layerIds_ne v id s l L h1]

theorem foldl_layerIds_mem (v : List ℚ) (id : Uuid) (levels : List Nat) (L : Nat) :
    levels.Nodup → L ∈ levels →
    ∀ s : VectorStore, L < s.layers.length →
    layerIds (levels.foldl (addLevel v id) s) L = layerIds s L ++ [id] := by
  induction levels with
  | nil => intro _ h; simp at h
  | cons l levels ih =>
    intro hnd hL s hlt
    rw [List.foldl_cons]
    rcases List.mem_cons.mp hL with he | hm
    · subst he
      have hnotin : L ∉ levels := (List.nodup_cons.mp hnd).1
      rw [foldl_layerIds_notmem v id levels L hnotin]
      exact addLevel_layerIds_self v id s L _ (List.getElem?_eq_getElem hlt)
    · have hnd2 : levels.Nodup := (List.nodup_cons.mp hnd).2
      have hlt2 : L < (addLevel v id s l).layers.length := by
        rw [addLevel_layers_length]
        exact hlt
      by_cases he : l = L
      · subst he
        have : l ∉ levels := (List.nodup_cons.mp hnd).1
        exact absurd hm this
      · rw [ih hnd2 hm _ hlt2, addLevel_layerIds_ne v id s l L he]

theorem extend_layerIds (s : VectorStore) (m : Nat) (L : Nat) :
    layerIds { s with layers := s.layers ++ List.replicate m ⟨[]⟩ } L = layerIds s L := by
  unfold layerIds
  dsimp only
  by_cases hL : L < s.layers.length
  · rw [List.getElem?_append]
    rw [if_pos hL]
  · have h1 : s.layers[L]? = (none : Option Layer) := List.getElem?_eq_none (by omega)
    rw [List.getElem?_append_right (by omega), h1, List.getElem?_replicate]
    split <;> rfl

theorem add_layerIds_le (s : VectorStore) (id : Uuid) (max_level : Nat) (v : List ℚ)
    (t : String) (fn : Option String) (L : Nat) (hL : L ≤ max_level) :
    layerIds (add_with_filename s id max_level v t fn) L = layerIds s L ++ [id] := by
  have hmain : layerIds ((List.range (max_level + 1)).foldl (addLevel v id)
      { s with layers := s.layers ++ List.replicate (max_level + 1 - s.layers.length) ⟨[]⟩ }) L
      = layerIds s L ++ [id] := by
    rw [foldl_layerIds_mem v id (List.range (max_level + 1)) L (List.nodup_range _)
      (List.mem_range.mpr (by omega)) _
      (by simp only [List.length_append, List.length_replicate]; omega)]
    rw [extend_layerIds]
  unfold add_with_filename
  cases fn
  · exact hmain
  · exact hmain

theorem add_layerIds_gt (s : VectorStore) (id : Uuid) (max_level : Nat) (v : List ℚ)
    (t : String) (fn : Option String) (L : Nat) (hL : max_level < L) :
    layerIds (add_with_filename s id max_level v t fn) L = layerIds s L := by
  have hmain : layerIds ((List.range (max_level + 1)).foldl (addLevel v id)
      { s with layers := s.layers ++ List.replicate (max_level + 1 - s.layers.length) ⟨[]⟩ }) L
      = layerIds s L := by
    rw [foldl_layerIds_notmem v id (List.range (max_level + 1)) L
      (fun hm => by have := List.mem_range.mp hm; omega)]
    rw [extend_layerIds]
  unfold add_with_filename
  cases fn
  · exact hmain
  · exact hmain

theorem freshId_not_in_layers (s : VectorStore) (id : Uuid) (h : freshId s id = true) :
    ∀ L, id ∉ layerIds s L := by
  unfold freshId at h
  rw [Bool.and_eq_true] at h
  obtain ⟨h1, _⟩ := h
  intro L hmem
  unfold layerIds at hmem
  rcases List.mem_map.mp hmem with ⟨n, hn, hid⟩
  cases hL : s.layers[L]? with
  | none =>
    rw [hL] at hn
    simp at hn
  | some layer =>
    rw [hL] at hn
    simp only [Option.getD_some] at hn
    have hmem2 : layer ∈ s.layers := by
      rcases List.getElem?_eq_some.mp hL with ⟨hlt, hget⟩
      exact hget ▸ List.getElem_mem hlt
    have h3 := List.all_eq_true.mp (List.all_eq_true.mp h1 layer hmem2) n hn
    simp only [decide_eq_true_eq] at h3
    exact h3 hid

theorem freshId_text_none (s : VectorStore) (id : Uuid) (h : freshId s id = true) :
    hmGet s.texts id = none := by
  unfold freshId at h
  rw [Bool.and_eq_true] at h
  exact Option.isNone_iff_eq_none.mp h.2

theorem layerIds_new (M L : Nat) : layerIds (VectorStore.new M) L = [] := by
  unfold layerIds VectorStore.new
  cases L <;> rfl

/-- C8: after any sequence of successful `add` calls from a fresh store, layer
membership is downward closed — a node living at layer `L` lives at every layer
`L' ≤ L` (so each node inhabits exactly the contiguous range `[0, topLayer]`) —
and layer 0 contains every inserted node (every id with a text payload). -/
theorem layer_contiguity (s : VectorStore) (h : Reachable s) :
    (∀ id L Lp, id ∈ layerIds s L → Lp ≤ L → id ∈ layerIds s Lp) ∧
    (∀ id, (hmGet s.texts id).isSome → id ∈ layerIds s 0) := by
  induction h with
  | new M =>
    constructor
    · intro id L Lp hmem _
      rw [layerIds_new] at hmem
      simp at hmem
    · intro id hid
      simp [hmGet, VectorStore.new] at hid
  | add s id lvl v t fn hr hf ih =>
    have hfresh1 : ∀ L, id ∉ layerIds s L := freshId_not_in_layers s id hf
    constructor
    · intro idq L Lp hmem hle
      by_cases hq : idq = id
      · subst hq
        have hLle : L ≤ lvl := by
          by_contra hgt
          push_neg at hgt
          rw [add_layerIds_gt s idq lvl v t fn L hgt] at hmem
          exact hfresh1 L hmem
        rw [add_layerIds_le s idq lvl v t fn Lp (le_trans hle hLle)]
        simp
      · have hs : idq ∈ layerIds s L := by
          rcases le_or_lt L lvl with h1 | h1
          · rw [add_layerIds_le s id lvl v t fn L h1] at hmem
            rcases List.mem_append.mp hmem with h2 | h2
            · exact h2
            · simp only [List.mem_singleton] at h2
              exact absurd h2 hq
          · rw [add_layerIds_gt s id lvl v t fn L h1] at hmem
            exact hmem
        have hs2 := ih.1 idq L Lp hs hle
        rcases le_or_lt Lp lvl with h2 | h2
        · rw [add_layerIds_le s id lvl v t fn Lp h2]
          exact List.mem_append_left _ hs2
        · rw [add_layerIds_gt s id lvl v t fn Lp h2]
          exact hs2
    · intro idq hsome
      rw [add_with_filename_texts] at hsome
      by_cases hq : idq = id
      · subst hq
        rw [add_layerIds_le s idq lvl v t fn 0 (Nat.zero_le _)]
        simp
      · rw [hmGet_hmInsert_ne s.texts id idq t hq] at hsome
        have h3 := ih.2 idq hsome
        rw [add_layerIds_le s id lvl v t fn 0 (Nat.zero_le _)]
        exact List.mem_append_left _ h3

/-- Witness for `layer_contiguity`: one add with level draw 2 puts node 0 at layers
0, 1 and 2; downward closure pushes its membership at layer 2 to layer 1. -/
theorem layer_contiguity_witness :
    0 ∈ layerIds (add_with_filename (VectorStore.new 16) 0 2 [1] "a" none) 1 :=
  (layer_contiguity (add_with_filename (VectorStore.new 16) 0 2 [1] "a" none)
      (Reachable.add _ 0 2 [1] "a" none (Reachable.new 16) (by decide))).1
    0 2 1 (by with_unfolding_all decide) (by decide)

/-! ## Sortedness of the search result (C6) -/

theorem sortBest_sorted (l : List (Uuid × ℚ)) :
    (sortBest l).Sorted (fun a b => a.2 ≤ b.2) :=
  List.sorted_insertionSort _ l

theorem searchStep_sorted (layer : Layer) (q : List ℚ) (k : Nat)
    (st : List (Uuid × ℚ) × List Uuid × Bool) (nid : Uuid)
    (h : st.1.Sorted (fun a b => a.2 ≤ b.2)) :
    (searchStep layer q k st nid).1.Sorted (fun a b => a.2 ≤ b.2) := by
  obtain ⟨best, visited, imp⟩ := st
  unfold searchStep
  dsimp only at h ⊢
  split
  · exact h
  · split
    · exact h
    · split
      · exact h
      · try dsimp only
        split
        · exact List.Pairwise.sublist (List.dropLast_sublist _) (sortBest_sorted _)
        · exact sortBest_sorted _

theorem foldl_searchStep_sorted (layer : Layer) (q : List ℚ) (k : Nat) (ns : List Uuid) :
    ∀ st : List (Uuid × ℚ) × List Uuid × Bool, st.1.Sorted (fun a b => a.2 ≤ b.2) →
    (ns.foldl (searchStep layer q k) st).1.Sorted (fun a b => a.2 ≤ b.2) := by
  induction ns with
  | nil => intro st h; exact h
  | cons x ns ih =>
    intro st h
    rw [List.foldl_cons]
    exact ih _ (searchStep_sorted layer q k st x h)

theorem searchPass_sorted (layer : Layer) (q : List ℚ) (k : Nat)
    (best : List (Uuid × ℚ)) (visited : List Uuid)
    (h : best.Sorted (fun a b => a.2 ≤ b.2)) :
    (searchPass layer q k best visited).1.Sorted (fun a b => a.2 ≤ b.2) := by
  unfold searchPass
  split
  · exact List.Pairwise.nil
  · split
    · exact h
    · split
      · exact h
      · exact foldl_searchStep_sorted layer q k _ _ h

theorem searchLoop_sorted (layer : Layer) (q : List ℚ) (k : Nat) :
    ∀ (fuel : Nat) (best : List (Uuid × ℚ)) (visited : List Uuid),
    best.Sorted (fun a b => a.2 ≤ b.2) →
    (searchLoop layer q k fuel best visited).Sorted (fun a b => a.2 ≤ b.2) := by
  intro fuel
  induction fuel with
  | zero => intro best _ h; exact h
  | succ fuel ih =>
    intro best visited h
    unfold searchLoop
    try dsimp only
    split
    · exact ih _ _ (searchPass_sorted layer q k best visited h)
    · exact searchPass_sorted layer q k best visited h

theorem find_nearest_sorted (s : VectorStore) (q : List ℚ) (level k : Nat) :
    (find_nearest s q level k).Sorted (fun a b => a.2 ≤ b.2) := by
  unfold find_nearest
  split
  · exact List.Pairwise.nil
  · rename_i layer hlayer
    unfold findNearestLayer
    split
    · exact List.Pairwise.nil
    · exact searchLoop_sorted layer q k _ _ _ (List.sorted_singleton _)

/-- C6 (counterexample).  `s4p` is the same abstract store as the reachable `s4` —
same payloads, parameters, nodes and neighbor sets (`eqUpToNeighborOrder`) — with
only the hash-dependent iteration order of node `a`'s neighbor set differing, as a
second run of the program (a reload of the same saved file, or a fresh process
repeating the same inserts) may materialize it.  The two runs disagree on
`query(e1, 2)` (the result sets differ), and in the `s4p` run `query(e1, 3)` orders
`"c"` (inserted third) before `"b"` (inserted second) at equal distance 0 — so
neither cross-run determinism nor the earlier-inserted-first tie-break holds. -/
theorem query_hash_order_counterexample :
    Reachable s4 ∧ eqUpToNeighborOrder s4 s4p = true ∧
    query s4 e1 2 ≠ query s4p e1 2 ∧
    query s4 e1 3 = [("a", 1, none), ("b", 0, none), ("c", 0, none)] ∧
    query s4p e1 3 = [("a", 1, none), ("c", 0, none), ("b", 0, none)] := by
  constructor
  · exact Reachable.add _ 3 0 e4 "d" none
      (Reachable.add _ 2 0 e3 "c" none
        (Reachable.add _ 1 0 e2 "b" none
          (Reachable.add _ 0 0 e1 "a" none (Reachable.new 2)
            (by decide))
          (by with_unfolding_all decide))
        (by with_unfolding_all decide))
      (by with_unfolding_all decide)
  · with_unfolding_all decide

/-- C6 (amended): `query` is a deterministic function of the concrete in-memory
store — the iteration order of each neighbor `HashSet` included — and always
returns its rows sorted by nonincreasing similarity (nondecreasing distance); but
that iteration order is not determined by the insert sequence, so across runs the
result may differ on equal-distance candidates, and ties are ordered by discovery
order, not by insertion time (see the counterexample). -/
theorem query_sorted_by_similarity (s : VectorStore) (q : List ℚ) (k : Nat) :
    (query s q k).Pairwise (fun x y => y.2.1 ≤ x.2.1) := by
  unfold query
  try dsimp only
  refine List.Pairwise.map _ ?_ (find_nearest_sorted s q 0 k)
  intro a b hab
  dsimp only
  exact sub_le_sub_left hab 1

/-! ## Cardinality bounds on the search result (C9) -/

theorem findIdx?_imp_exists {α : Type _} (p : α → Bool) (l : List α) :
    ∀ start i : Nat, List.findIdx? p l start = some i → ∃ a ∈ l, p a = true := by
  induction l with
  | nil =>
    intro s i h
    rw [List.findIdx?_nil] at h
    exact Option.noConfusion h
  | cons x l ih =>
    intro s i h
    rw [List.findIdx?_cons] at h
    by_cases hx : p x = true
    · exact ⟨x, by simp, hx⟩
    · rw [if_neg hx] at h
      obtain ⟨a, ha, hpa⟩ := ih _ _ h
      exact ⟨a, by simp [ha], hpa⟩

theorem idToIndex_some_mem (layer : Layer) (id : Uuid) (j : Nat)
    (h : layer.idToIndex id = some j) : id ∈ layer.nodes.map (fun n => n.id) := by
  obtain ⟨n, hn, hp⟩ := findIdx?_imp_exists _ layer.nodes 0 j h
  simp only [decide_eq_true_eq] at hp
  exact List.mem_map.mpr ⟨n, hn, hp⟩

theorem searchStep_inv (layer : Layer) (q : List ℚ) (k : Nat)
    (st : List (Uuid × ℚ) × List Uuid × Bool) (nid : Uuid)
    (h1 : st.1.length ≤ max 1 k)
    (h2 : (st.1.map (fun p => p.1)).Nodup)
    (h3 : ∀ p ∈ st.1, p.1 ∈ st.2.1)
    (h4 : ∀ p ∈ st.1, p.1 ∈ layer.nodes.map (fun n => n.id)) :
    (searchStep layer q k st nid).1.length ≤ max 1 k ∧
    ((searchStep layer q k st nid).1.map (fun p => p.1)).Nodup ∧
    (∀ p ∈ (searchStep layer q k st nid).1, p.1 ∈ (searchStep layer q k st nid).2.1) ∧
    (∀ p ∈ (searchStep layer q k st nid).1, p.1 ∈ layer.nodes.map (fun n => n.id)) := by
  obtain ⟨best, visited, imp⟩ := st
  dsimp only at h1 h2 h3 h4
  unfold searchStep
  dsimp only
  split
  · exact ⟨h1, h2, h3, h4⟩
  · rename_i hniv
    split
    · exact ⟨h1, h2, fun p hp => List.mem_append_left _ (h3 p hp), h4⟩
    · rename_i j hj
      split
      · exact ⟨h1, h2, fun p hp => List.mem_append_left _ (h3 p hp), h4⟩
      · rename_i n hn
        try dsimp only
        have hnid_best : nid ∉ best.map (fun p => p.1) := by
          intro hmem
          obtain ⟨p, hp, he⟩ := List.mem_map.mp hmem
          exact hniv (he ▸ h3 p hp)
        have happ_nodup : ((best ++ [(nid, cosineD q n.vector)]).map (fun p => p.1)).Nodup := by
          rw [List.map_append]
          rw [List.nodup_append]
          refine ⟨h2, by simp, ?_⟩
          simp only [List.map_cons, List.map_nil]
          rw [List.disjoint_singleton]
          exact hnid_best
        have hperm : (sortBest (best ++ [(nid, cosineD q n.vector)])).Perm
            (best ++ [(nid, cosineD q n.vector)]) := by
          unfold sortBest
          exact List.perm_insertionSort _ _
        have hsort_nodup : ((sortBest (best ++ [(nid, cosineD q n.vector)])).map
            (fun p => p.1)).Nodup :=
          (List.Perm.nodup_iff (hperm.map _)).mpr happ_nodup
        have hsort_len : (sortBest (best ++ [(nid, cosineD q n.vector)])).length
            = best.length + 1 := by
          rw [hperm.length_eq]
          simp
        have hsort_mem : ∀ p ∈ sortBest (best ++ [(nid, cosineD q n.vector)]),
            p ∈ best ∨ p = (nid, cosineD q n.vector) := by
          intro p hp
          have := hperm.mem_iff.mp hp
          rcases List.mem_append.mp this with h | h
          · exact Or.inl h
          · exact Or.inr (List.mem_singleton.mp h)
        split
        · rename_i hgt
          refine ⟨?_, ?_, ?_, ?_⟩
          · rw [List.length_dropLast, hsort_len]
            simpa using h1
          · exact List.Nodup.sublist (List.Sublist.map _ (List.dropLast_sublist _)) hsort_nodup
          · intro p hp
            have hp2 := (List.dropLast_sublist _).subset hp
            rcases hsort_mem p hp2 with h | h
            · exact List.mem_append_left _ (h3 p h)
            · subst h
              exact List.mem_append_right _ (by simp)
          · intro p hp
            have hp2 := (List.dropLast_sublist _).subset hp
            rcases hsort_mem p hp2 with h | h
            · exact h4 p h
            · subst h
              exact idToIndex_some_mem layer nid j hj
        · rename_i hle
          push_neg at hle
          refine ⟨?_, hsort_nodup, ?_, ?_⟩
          · exact le_trans hle (le_max_right 1 k)
          · intro p hp
            rcases hsort_mem p hp with h | h
            · exact List.mem_append_left _ (h3 p h)
            · subst h
              exact List.mem_append_right _ (by simp)
          · intro p hp
            rcases hsort_mem p hp with h | h
            · exact h4 p h
            · subst h
              exact idToIndex_some_mem layer nid j hj

theorem foldl_searchStep_inv (layer : Layer) (q : List ℚ) (k : Nat) (ns : List Uuid) :
    ∀ st : List (Uuid × ℚ) × List Uuid × Bool,
    st.1.length ≤ max 1 k →
    (st.1.map (fun p => p.1)).Nodup →
    (∀ p ∈ st.1, p.1 ∈ st.2.1) →
    (∀ p ∈ st.1, p.1 ∈ layer.nodes.map (fun n => n.id)) →
    (ns.foldl (searchStep layer q k) st).1.length ≤ max 1 k ∧
    (((ns.foldl (searchStep layer q k) st).1.map (fun p => p.1)).Nodup) ∧
    (∀ p ∈ (ns.foldl (searchStep layer q k) st).1,
      p.1 ∈ (ns.foldl (searchStep layer q k) st).2.1) ∧
    (∀ p ∈ (ns.foldl (searchStep layer q k) st).1,
      p.1 ∈ layer.nodes.map (fun n => n.id)) := by
  induction ns with
  | nil => intro st h1 h2 h3 h4; exact ⟨h1, h2, h3, h4⟩
  | cons x ns ih =>
    intro st h1 h2 h3 h4
    rw [List.foldl_cons]
    obtain ⟨g1, g2, g3, g4⟩ := searchStep_inv layer q k st x h1 h2 h3 h4
    exact ih _ g1 g2 g3 g4

theorem searchPass_inv (layer : Layer) (q : List ℚ) (k : Nat)
    (best : List (Uuid × ℚ)) (visited : List Uuid)
    (h1 : best.length ≤ max 1 k)
    (h2 : (best.map (fun p => p.1)).Nodup)
    (h3 : ∀ p ∈ best, p.1 ∈ visited)
    (h4 : ∀ p ∈ best, p.1 ∈ layer.nodes.map (fun n => n.id)) :
    (searchPass layer q k best visited).1.length ≤ max 1 k ∧
    (((searchPass layer q k best visited).1.map (fun p => p.1)).Nodup) ∧
    (∀ p ∈ (searchPass layer q k best visited).1,
      p.1 ∈ (searchPass layer q k best visited).2.1) ∧
    (∀ p ∈ (searchPass layer q k best visited).1,
      p.1 ∈ layer.nodes.map (fun n => n.id)) := by
  unfold searchPass
  split
  · exact ⟨by simp, by simp, by simp, by simp⟩
  · split
    · exact ⟨h1, h2, h3, h4⟩
    · split
      · exact ⟨h1, h2, h3, h4⟩
      · exact foldl_searchStep_inv layer q k _ (_, visited, false) h1 h2 h3 h4

theorem searchLoop_inv (layer : Layer) (q : List ℚ) (k : Nat) :
    ∀ (fuel : Nat) (best : List (Uuid × ℚ)) (visited : List Uuid),
    best.length ≤ max 1 k →
    (best.map (fun p => p.1)).Nodup →
    (∀ p ∈ best, p.1 ∈ visited) →
    (∀ p ∈ best, p.1 ∈ layer.nodes.map (fun n => n.id)) →
    (searchLoop layer q k fuel best visited).length ≤ max 1 k ∧
    ((searchLoop layer q k fuel best visited).map (fun p => p.1)).Nodup ∧
    (∀ p ∈ searchLoop layer q k fuel best visited,
      p.1 ∈ layer.nodes.map (fun n => n.id)) := by
  intro fuel
  induction fuel with
  | zero => intro best visited h1 h2 _ h4; exact ⟨h1, h2, h4⟩
  | succ fuel ih =>
    intro best visited h1 h2 h3 h4
    obtain ⟨g1, g2, g3, g4⟩ := searchPass_inv layer q k best visited h1 h2 h3 h4
    unfold searchLoop
    try dsimp only
    split
    · exact ih _ _ g1 g2 g3 g4
    · exact ⟨g1, g2, g4⟩

theorem findNearestLayer_inv (layer : Layer) (q : List ℚ) (k : Nat) :
    (findNearestLayer layer q k).length ≤ max 1 k ∧
    ((findNearestLayer layer q k).map (fun p => p.1)).Nodup ∧
    (∀ p ∈ findNearestLayer layer q k, p.1 ∈ layer.nodes.map (fun n => n.id)) := by
  unfold findNearestLayer
  split
  · exact ⟨by simp, by simp, by simp⟩
  · rename_i n0 rest heq
    refine searchLoop_inv layer q k (searchFuel layer) _ _ ?_ (by simp) ?_ ?_
    · simp only [List.length_singleton]
      exact le_max_left 1 k
    · intro p hp
      rw [List.mem_singleton] at hp
      subst hp
      simp
    · intro p hp
      rw [List.mem_singleton] at hp
      subst hp
      rw [heq]
      simp

theorem hmInsert_fresh_append (m : List (Uuid × String)) (k : Uuid) (v : String)
    (h : hmGet m k = none) : hmInsert m k v = m ++ [(k, v)] := by
  unfold hmGet at h
  rw [Option.map_eq_none'] at h
  unfold hmInsert
  rw [if_neg]
  intro hany
  rcases List.any_eq_true.mp hany with ⟨p, hp, hpk⟩
  exact absurd hpk (by simpa using List.find?_eq_none.mp h p hp)

theorem reachable_count (s : VectorStore) (h : Reachable s) :
    (layerIds s 0).length = text_count s := by
  induction h with
  | new M => rfl
  | add s id lvl v t fn hr hf ih =>
    rw [add_layerIds_le s id lvl v t fn 0 (Nat.zero_le _)]
    unfold text_count
    rw [add_with_filename_texts, hmInsert_fresh_append s.texts id t (freshId_text_none s id hf)]
    simp only [List.length_append, List.length_singleton]
    unfold text_count at ih
    omega

/-- C9 (counterexample).  In the reachable store `s4` (four adds, `M = 2`) node `d`
is reachable from no other node at layer 0 — the reverse edge `a → d` was dropped
by the degree cap — so the greedy search from position 0 never finds it:
`query(e1, 4)` returns 3 rows although `min(4, count()) = 4`. -/
theorem query_shortfall_counterexample :
    Reachable s4 ∧ text_count s4 = 4 ∧ (query s4 e1 4).length = 3 ∧
    (query s4 e1 4).length ≠ min 4 (text_count s4) := by
  constructor
  · exact Reachable.add _ 3 0 e4 "d" none
      (Reachable.add _ 2 0 e3 "c" none
        (Reachable.add _ 1 0 e2 "b" none
          (Reachable.add _ 0 0 e1 "a" none (Reachable.new 2)
            (by decide))
          (by with_unfolding_all decide))
        (by with_unfolding_all decide))
      (by with_unfolding_all decide)
  · with_unfolding_all decide

/-- C9 (amended): for every store built by successful adds and every query vector,
`query(q, k)` with `k ≥ 1` returns at most `min(k, count())` entries — the bounded
priority queue caps the result at `k` and only distinct layer-0 nodes can enter it —
but it may return strictly fewer, because the greedy search only reaches the part
of layer 0 connected to its start node (see the counterexample).  (For `k = 0` the
code still returns one entry on a nonempty store: the pop-after-push truncation
never empties `best`.) -/
theorem query_length_le (s : VectorStore) (q : List ℚ) (k : Nat)
    (hr : Reachable s) (hk : 1 ≤ k) :
    (query s q k).length ≤ min k (text_count s) := by
  unfold query
  try dsimp only
  rw [List.length_map]
  unfold find_nearest
  split
  · simp
  · rename_i layer hlayer
    obtain ⟨hlen, hnd, hsub⟩ := findNearestLayer_inv layer q k
    refine le_min ?_ ?_
    · rw [max_eq_right hk] at hlen
      exact hlen
    · have hrel : layerIds s 0 = layer.nodes.map (fun n => n.id) := by
        unfold layerIds
        rw [hlayer]
        rfl
      have hsubf : ((findNearestLayer layer q k).map (fun p => p.1)).toFinset
          ⊆ (layer.nodes.map (fun n => n.id)).toFinset := by
        intro x hx
        rw [List.mem_toFinset] at hx ⊢
        obtain ⟨p, hp, he⟩ := List.mem_map.mp hx
        exact he ▸ hsub p hp
      calc (findNearestLayer layer q k).length
          = ((findNearestLayer layer q k).map (fun p => p.1)).length :=
            (List.length_map _ _).symm
        _ = ((findNearestLayer layer q k).map (fun p => p.1)).toFinset.card :=
            (List.toFinset_card_of_nodup hnd).symm
        _ ≤ (layer.nodes.map (fun n => n.id)).toFinset.card := Finset.card_le_card hsubf
        _ ≤ (layer.nodes.map (fun n => n.id)).length := List.toFinset_card_le _
        _ = (layerIds s 0).length := by rw [hrel]
        _ = text_count s := reachable_count s hr

/-- Witness for `query_length_le` at the reachable store `s4` with `k = 2`. -/
theorem query_length_le_witness :
    (query s4 e1 2).length ≤ min 2 (text_count s4) :=
  query_length_le s4 e1 2
    (Reachable.add _ 3 0 e4 "d" none
      (Reachable.add _ 2 0 e3 "c" none
        (Reachable.add _ 1 0 e2 "b" none
          (Reachable.add _ 0 0 e1 "a" none (Reachable.new 2)
            (by decide))
          (by with_unfolding_all decide))
        (by with_unfolding_all decide))
      (by with_unfolding_all decide))
    (by decide)

end Arrow
